import Mathlib

/-!
# ShaderTypes.h: shared host/shader layout definitions

A shallow embedding of `Sources/Shaders/include/ShaderTypes.h`: the three
`NS_ENUM` enumerations, the `Uniforms` record, the preprocessor branch that
selects the meaning of `NSInteger`, and the struct layout rules of the two
compilations that read the header.
-/

namespace ShaderTypes

/-! ## The two compilations of the header -/

/-- The header is compiled twice.  With `__METAL_VERSION__` defined the shader
compiler reads it; otherwise the host compiler does, and `NSInteger` is whatever
`<Foundation/Foundation.h>` declares, a signed integer whose width in bits is
the parameter `nsIntegerBits`. -/
inductive Toolchain where
  | metal : Toolchain
  | host (nsIntegerBits : Nat) : Toolchain
deriving DecidableEq, Repr

/-- Width in bits of `NSInteger`: line 11 of the header,
`#define NSInteger metal::int32_t`, under `__METAL_VERSION__`; the Foundation
typedef otherwise. -/
def NSIntegerBits : Toolchain → Nat
  | .metal => 32
  | .host w => w

/-! ## Enumerations -/

/-- One enumerator of an `enum` body: its name and its written value, if any. -/
structure Enumerator where
  name : String
  init : Option Int
deriving DecidableEq, Repr

/-- A declaration `typedef NS_ENUM(_type, _name) { ... };`.  In both branches of
the header `NS_ENUM` expands to an `enum _name : _type`, so `underlying` is the
fixed underlying type written in the declaration. -/
structure EnumDecl where
  underlying : String
  name : String
  enumerators : List Enumerator
deriving DecidableEq, Repr

/-- Lines 18-23 of the header. -/
def BufferIndex : EnumDecl :=
  ⟨"NSInteger", "BufferIndex",
    [⟨"BufferIndexNodePosition", some 0⟩,
     ⟨"BufferIndexNodeColor", some 1⟩,
     ⟨"BufferIndexUniforms", some 2⟩]⟩

/-- Lines 25-29 of the header. -/
def VertexAttribute : EnumDecl :=
  ⟨"NSInteger", "VertexAttribute",
    [⟨"VertexAttributePosition", some 0⟩,
     ⟨"VertexAttributeColor", some 1⟩]⟩

/-- Lines 31-34 of the header. -/
def TextureIndex : EnumDecl :=
  ⟨"NSInteger", "TextureIndex",
    [⟨"TextureIndexColor", some 0⟩]⟩

/-- Every enumeration the header declares, in order of declaration. -/
def enumerations : List EnumDecl := [BufferIndex, VertexAttribute, TextureIndex]

/-- The C rule for enumerator values: an enumerator with `= v` has value `v`,
one without has the value of its predecessor plus one, `next` being the value
an enumerator without a written value would get here. -/
def enumValuesFrom (next : Int) : List Enumerator → List (String × Int)
  | [] => []
  | e :: es => (e.name, e.init.getD next) :: enumValuesFrom (e.init.getD next + 1) es

/-- The enumerators of a declaration with their values; a first enumerator
without a written value gets 0. -/
def EnumDecl.values (d : EnumDecl) : List (String × Int) :=
  enumValuesFrom 0 d.enumerators

/-! ## Two's-complement representation of enumerator values -/

/-- The `w`-bit two's-complement bit pattern of the integer `v`. -/
def encodeInt (w : Nat) (v : Int) : Nat := (v % (2 : Int) ^ w).toNat

/-- The integer a `w`-bit two's-complement bit pattern stands for. -/
def decodeInt (w : Nat) (bits : Nat) : Int :=
  if bits < 2 ^ (w - 1) then (bits : Int) else (bits : Int) - (2 : Int) ^ w

/-- Narrowing a 64-bit pattern to 32 bits keeps the low 32 bits. -/
def truncate32 (bits : Nat) : Nat := bits % 2 ^ 32

/-- Widening a 32-bit pattern of a signed integer to 64 bits copies bit 31 into
bits 32 to 63. -/
def signExtend32to64 (bits : Nat) : Nat :=
  if bits < 2 ^ 31 then bits else bits + (2 ^ 64 - 2 ^ 32)

/-- The bit pattern that holds the enumerator value `v` in a compilation. -/
def enumRepr (t : Toolchain) (v : Int) : Nat := encodeInt (NSIntegerBits t) v

/-- The integer read back from an enumerator's bit pattern in a compilation. -/
def enumValueOf (t : Toolchain) (bits : Nat) : Int := decodeInt (NSIntegerBits t) bits

/-! ## The `Uniforms` record -/

/-- The type names the header writes in the body of `Uniforms`. -/
inductive TypeName where
  | simd_float4x4 : TypeName
  | float : TypeName
  | simd_float4 : TypeName
deriving DecidableEq, Repr

/-- One member declaration of a struct: `type name;`. -/
structure Field where
  type : TypeName
  name : String
deriving DecidableEq, Repr

/-- Lines 36-42 of the header: the members of `Uniforms` in declared order. -/
def Uniforms : List Field :=
  [⟨.simd_float4x4, "projectionMatrix"⟩,
   ⟨.simd_float4x4, "modelViewMatrix"⟩,
   ⟨.float, "pointSize"⟩,
   ⟨.simd_float4, "edgeColor"⟩]

/-- What a member type is made of: a scalar, a vector or a matrix of floats of
`bits` bits each. -/
inductive Shape where
  | scalar (bits : Nat) : Shape
  | vector (n bits : Nat) : Shape
  | matrix (cols rows bits : Nat) : Shape
deriving DecidableEq, Repr

/-- Modelled from the spec: the header takes `simd_float4x4` and `simd_float4`
from `<simd/simd.h>`, which is not part of the repository; the spec (§3, §6)
gives them as a 4×4 matrix and a 4-component vector of 32-bit floats, and
`float` as a single 32-bit float. -/
def TypeName.shape : TypeName → Shape
  | .simd_float4x4 => .matrix 4 4 32
  | .float => .scalar 32
  | .simd_float4 => .vector 4 32

/-! ## Struct layout -/

/-- Size and alignment of a type, in bytes. -/
structure TypeLayout where
  size : Nat
  align : Nat
deriving DecidableEq, Repr

/-- Modelled from the spec: size and alignment of the member types in the host
compilation, which come from `<simd/simd.h>` and the host ABI, not from the
repository.  The spec gives the types as 16, 1 and 4 floats of 32 bits, hence
the sizes 64, 4 and 16; the alignments are the natural ones of the host ABI,
16 for the simd types and 4 for `float`. -/
def hostTypeLayout : TypeName → TypeLayout
  | .simd_float4x4 => ⟨64, 16⟩
  | .float => ⟨4, 4⟩
  | .simd_float4 => ⟨16, 16⟩

/-- The shader language's own types behind the names of the header. -/
inductive MetalType where
  | float : MetalType
  | floatN (n : Nat) : MetalType
  | floatCxR (cols rows : Nat) : MetalType
deriving DecidableEq, Repr

/-- Modelled from the spec: in the shader compilation `<simd/simd.h>` makes
`simd_float4x4` the shader type `float4x4` and `simd_float4` the shader type
`float4`. -/
def metalTypeOf : TypeName → MetalType
  | .simd_float4x4 => .floatCxR 4 4
  | .float => .float
  | .simd_float4 => .floatN 4

/-- Size in bytes of the shader vector `floatN`: `N` floats, a 3-vector taking
the room of a 4-vector. -/
def metalVectorSize (n : Nat) : Nat := 4 * (if n = 3 then 4 else n)

/-- Modelled from the spec: size and alignment of the shader types, from the
shader language's type tables: a scalar float is 4 bytes aligned to 4, a vector
is aligned to its size, a matrix is an array of `cols` column vectors of `rows`
floats and is aligned as its column. -/
def MetalType.layout : MetalType → TypeLayout
  | .float => ⟨4, 4⟩
  | .floatN n => ⟨metalVectorSize n, metalVectorSize n⟩
  | .floatCxR c r => ⟨c * metalVectorSize r, metalVectorSize r⟩

/-- Size and alignment of the member types in the shader compilation. -/
def shaderTypeLayout (t : TypeName) : TypeLayout := (metalTypeOf t).layout

/-- The next multiple of `a` at or after `off`. -/
def alignUp (off a : Nat) : Nat := (off + a - 1) / a * a

/-- The layout rule for the members of a struct: each member, in declared
order, goes to the next multiple of its alignment at or after the end of the
member before it.  `off` is the end of the members already placed. -/
def fieldOffsetsFrom (T : TypeName → TypeLayout) (off : Nat) : List Field → List (String × Nat)
  | [] => []
  | f :: fs =>
    (f.name, alignUp off (T f.type).align)
      :: fieldOffsetsFrom T (alignUp off (T f.type).align + (T f.type).size) fs

/-- Member names with their byte offsets. -/
def fieldOffsets (T : TypeName → TypeLayout) (fs : List Field) : List (String × Nat) :=
  fieldOffsetsFrom T 0 fs

/-- End of the last member placed, `off` being the end before any of `fs`. -/
def fieldsEndFrom (T : TypeName → TypeLayout) (off : Nat) : List Field → Nat
  | [] => off
  | f :: fs => fieldsEndFrom T (alignUp off (T f.type).align + (T f.type).size) fs

/-- Alignment of a struct: the largest alignment among its members. -/
def structAlign (T : TypeName → TypeLayout) (fs : List Field) : Nat :=
  (fs.map (fun f => (T f.type).align)).foldl max 1

/-- Size of a struct: the end of its last member rounded up to the struct's
alignment. -/
def structSize (T : TypeName → TypeLayout) (fs : List Field) : Nat :=
  alignUp (fieldsEndFrom T 0 fs) (structAlign T fs)


/-- Sum of the sizes of the members. -/
def fieldSizesSum (T : TypeName → TypeLayout) (fs : List Field) : Nat :=
  (fs.map (fun f => (T f.type).size)).sum

/-- Bytes of padding in front of each member: the gap between the end of the
member before it and its own offset. -/
def paddingBeforeFrom (T : TypeName → TypeLayout) (off : Nat) : List Field → List (String × Nat)
  | [] => []
  | f :: fs =>
    (f.name, alignUp off (T f.type).align - off)
      :: paddingBeforeFrom T (alignUp off (T f.type).align + (T f.type).size) fs

/-- Padding in front of each member of a struct. -/
def paddingBefore (T : TypeName → TypeLayout) (fs : List Field) : List (String × Nat) :=
  paddingBeforeFrom T 0 fs

/-- Bytes of padding after the last member. -/
def tailPadding (T : TypeName → TypeLayout) (fs : List Field) : Nat :=
  structSize T fs - fieldsEndFrom T 0 fs

/-- Member offsets of a struct as the host compiler computes them. -/
def hostOffsets (fs : List Field) : List (String × Nat) := fieldOffsets hostTypeLayout fs

/-- Size of a struct as the host compiler computes it. -/
def hostSize (fs : List Field) : Nat := structSize hostTypeLayout fs

/-- Byte offset of the member called `name` in the host compilation, if the
struct has such a member. -/
def hostOffsetOf (fs : List Field) (name : String) : Option Nat :=
  (hostOffsets fs).lookup name

/-- Bytes to skip at `off` to reach a multiple of `a`. -/
def metalPadding (off a : Nat) : Nat := (a - off % a) % a

/-- The shader compiler's progress through the members of a struct: the members
placed so far with their offsets, the end of the last one, and the largest
alignment met. -/
structure MetalLayoutState where
  placed : List (String × Nat)
  cursor : Nat
  align : Nat
deriving DecidableEq, Repr

/-- The shader compiler places one more member: it skips the padding its
alignment asks for and puts the member there. -/
def metalPlace (st : MetalLayoutState) (f : Field) : MetalLayoutState :=
  ⟨st.placed ++ [(f.name, st.cursor + metalPadding st.cursor (shaderTypeLayout f.type).align)],
   st.cursor + metalPadding st.cursor (shaderTypeLayout f.type).align
     + (shaderTypeLayout f.type).size,
   max st.align (shaderTypeLayout f.type).align⟩

/-- The shader compiler's layout of a struct, member after member. -/
def metalStructLayout (fs : List Field) : MetalLayoutState :=
  fs.foldl metalPlace ⟨[], 0, 1⟩

/-- Member offsets of a struct as the shader compiler computes them. -/
def shaderOffsets (fs : List Field) : List (String × Nat) := (metalStructLayout fs).placed

/-- Size of a struct as the shader compiler computes it: the end of the last
member plus the padding that makes the size a multiple of the alignment. -/
def shaderSize (fs : List Field) : Nat :=
  (metalStructLayout fs).cursor
    + metalPadding (metalStructLayout fs).cursor (metalStructLayout fs).align

/-- Byte offset of the member called `name` in the shader compilation, if the
struct has such a member. -/
def shaderOffsetOf (fs : List Field) (name : String) : Option Nat :=
  (shaderOffsets fs).lookup name

/-- The two matrices exchanged: a reordering of `Uniforms` that keeps the list
of offsets 0, 64, 128, 144 and yet moves both matrices. -/
def matricesSwapped : List Field :=
  [⟨.simd_float4x4, "modelViewMatrix"⟩,
   ⟨.simd_float4x4, "projectionMatrix"⟩,
   ⟨.float, "pointSize"⟩,
   ⟨.simd_float4, "edgeColor"⟩]

/-! ## Values of `Uniforms` and their bytes -/

/-- A value of `Uniforms`.  Every float component is given by its 32-bit
pattern; a matrix lists its 16 components in memory order, column after
column. -/
structure UniformsValue where
  projectionMatrix : List Nat
  modelViewMatrix : List Nat
  pointSize : Nat
  edgeColor : List Nat
deriving DecidableEq, Repr

/-- The value has 16 + 16 + 1 + 4 components and each is a 32-bit pattern. -/
def UniformsValue.WellFormed (u : UniformsValue) : Prop :=
  u.projectionMatrix.length = 16 ∧ u.modelViewMatrix.length = 16 ∧ u.edgeColor.length = 4
    ∧ (∀ w ∈ u.projectionMatrix, w < 2 ^ 32) ∧ (∀ w ∈ u.modelViewMatrix, w < 2 ^ 32)
    ∧ u.pointSize < 2 ^ 32 ∧ (∀ w ∈ u.edgeColor, w < 2 ^ 32)

/-- The components of each member, in declared order of the members. -/
def UniformsValue.members (u : UniformsValue) : List (List Nat) :=
  [u.projectionMatrix, u.modelViewMatrix, [u.pointSize], u.edgeColor]

/-- Rebuilds a value from the components of its four members. -/
def UniformsValue.ofMembers : List (List Nat) → Option UniformsValue
  | [p, m, [s], e] => some ⟨p, m, s, e⟩
  | _ => none

/-- The four bytes of a 32-bit pattern, least significant first. -/
def wordBytes (w : Nat) : List Nat :=
  [w % 256, w / 256 % 256, w / 65536 % 256, w / 16777216 % 256]

/-- The bytes of a run of 32-bit patterns. -/
def wordsToBytes : List Nat → List Nat
  | [] => []
  | w :: ws => wordBytes w ++ wordsToBytes ws

/-- The 32-bit patterns held by a run of bytes, four bytes each, least
significant first. -/
def bytesToWords : List Nat → List Nat
  | b0 :: b1 :: b2 :: b3 :: rest =>
    (b0 + 256 * b1 + 65536 * b2 + 16777216 * b3) :: bytesToWords rest
  | _ => []

/-- Overwrites the bytes of `buf` from offset `off` on with `bs`. -/
def store (buf : List Nat) (off : Nat) (bs : List Nat) : List Nat :=
  buf.take off ++ bs ++ buf.drop (off + bs.length)

/-- The `n` bytes of `buf` from offset `off` on. -/
def load (buf : List Nat) (off n : Nat) : List Nat :=
  (buf.drop off).take n

/-- Stores each member's bytes at the member's offset. -/
def storeMembers (buf : List Nat) : List ((String × Nat) × List Nat) → List Nat
  | [] => buf
  | (p, ws) :: rest => storeMembers (store buf p.2 (wordsToBytes ws)) rest

/-- The bytes the host writes for a value of `Uniforms`: a zeroed buffer of
the host size of the struct, each member stored at its host offset. -/
def hostBytes (u : UniformsValue) : List Nat :=
  storeMembers (List.replicate (hostSize Uniforms) 0) ((hostOffsets Uniforms).zip u.members)

/-- What the shader reads for each member of a struct: the bytes from the
member's shader offset on, as many as the member's shader type is large. -/
def shaderMembers (fs : List Field) (buf : List Nat) : List (List Nat) :=
  fs.map (fun f =>
    bytesToWords (load buf ((shaderOffsetOf fs f.name).getD 0) (shaderTypeLayout f.type).size))

/-- The value of `Uniforms` the shader sees in a buffer. -/
def shaderRead (buf : List Nat) : Option UniformsValue :=
  UniformsValue.ofMembers (shaderMembers Uniforms buf)

/-- The 4×4 identity matrix: 1.0 (pattern `0x3F800000`) on the diagonal. -/
def identityMatrix : List Nat :=
  [0x3F800000, 0, 0, 0,  0, 0x3F800000, 0, 0,  0, 0, 0x3F800000, 0,  0, 0, 0, 0x3F800000]

/-- The value of the round-trip scenario: both matrices the identity,
`pointSize` 5.0 (pattern `0x40A00000`), `edgeColor` (1.0, 0.0, 0.0, 1.0). -/
def scenarioValue : UniformsValue :=
  ⟨identityMatrix, identityMatrix, 0x40A00000, [0x3F800000, 0, 0, 0x3F800000]⟩

/-! ## Lemmas on bytes and buffers -/

theorem wordsToBytes_length (ws : List Nat) : (wordsToBytes ws).length = 4 * ws.length := by
  induction ws with
  | nil => rfl
  | cons w ws ih => simp [wordsToBytes, wordBytes, ih]; omega

theorem bytesToWords_wordsToBytes (ws : List Nat) (h : ∀ w ∈ ws, w < 2 ^ 32) :
    bytesToWords (wordsToBytes ws) = ws := by
  induction ws with
  | nil => rfl
  | cons w ws ih =>
    have hw : w < 2 ^ 32 := h w (List.mem_cons_self _ _)
    have ht : bytesToWords (wordsToBytes ws) = ws :=
      ih (fun x hx => h x (List.mem_cons_of_mem _ hx))
    simp only [wordsToBytes, wordBytes, List.cons_append, List.nil_append, bytesToWords, ht]
    congr 1
    omega

theorem store_append (a old c bs : List Nat) (off : Nat) (ha : a.length = off)
    (ho : old.length = bs.length) : store (a ++ old ++ c) off bs = a ++ bs ++ c := by
  subst ha
  simp [store, ← ho, List.append_assoc]

theorem load_append (a x c : List Nat) (off n : Nat) (ha : a.length = off)
    (hx : x.length = n) : load (a ++ x ++ c) off n = x := by
  subst ha; subst hx
  simp [load, List.append_assoc]

theorem hostBytes_eq (u : UniformsValue) (hp : u.projectionMatrix.length = 16)
    (hm : u.modelViewMatrix.length = 16) (he : u.edgeColor.length = 4) :
    hostBytes u = wordsToBytes u.projectionMatrix ++ wordsToBytes u.modelViewMatrix
      ++ wordsToBytes [u.pointSize] ++ List.replicate 12 0 ++ wordsToBytes u.edgeColor := by
  have hoff : hostOffsets Uniforms = [("projectionMatrix", 0),
      ("modelViewMatrix", 64), ("pointSize", 128), ("edgeColor", 144)] := by decide
  have hsz : hostSize Uniforms = 160 := by decide
  have hP : (wordsToBytes u.projectionMatrix).length = 64 := by
    rw [wordsToBytes_length, hp]
  have hM : (wordsToBytes u.modelViewMatrix).length = 64 := by
    rw [wordsToBytes_length, hm]
  have hS : (wordsToBytes [u.pointSize]).length = 4 := by
    rw [wordsToBytes_length]; rfl
  have hE : (wordsToBytes u.edgeColor).length = 16 := by
    rw [wordsToBytes_length, he]
  have s1 : store (List.replicate 160 0) 0 (wordsToBytes u.projectionMatrix)
      = wordsToBytes u.projectionMatrix ++ List.replicate 96 0 := by
    have h := store_append [] (List.replicate 64 0) (List.replicate 96 0)
      (wordsToBytes u.projectionMatrix) 0 rfl (by rw [hP]; rfl)
    have e : List.replicate 160 0 = [] ++ List.replicate 64 0 ++ List.replicate 96 0 := by
      rw [List.nil_append, ← List.replicate_add]
    rw [e, h, List.nil_append]
  have s2 : store (wordsToBytes u.projectionMatrix ++ List.replicate 96 0) 64
      (wordsToBytes u.modelViewMatrix)
      = wordsToBytes u.projectionMatrix ++ wordsToBytes u.modelViewMatrix
        ++ List.replicate 32 0 := by
    have h := store_append (wordsToBytes u.projectionMatrix) (List.replicate 64 0)
      (List.replicate 32 0) (wordsToBytes u.modelViewMatrix) 64 hP (by rw [hM]; rfl)
    have e : List.replicate 96 0 = List.replicate 64 0 ++ List.replicate 32 0 := by
      rw [← List.replicate_add]
    rw [e, ← List.append_assoc, h]
  have s3 : store (wordsToBytes u.projectionMatrix ++ wordsToBytes u.modelViewMatrix
        ++ List.replicate 32 0) 128 (wordsToBytes [u.pointSize])
      = wordsToBytes u.projectionMatrix ++ wordsToBytes u.modelViewMatrix
        ++ wordsToBytes [u.pointSize] ++ List.replicate 28 0 := by
    have h := store_append (wordsToBytes u.projectionMatrix ++ wordsToBytes u.modelViewMatrix)
      (List.replicate 4 0) (List.replicate 28 0) (wordsToBytes [u.pointSize]) 128
      (by rw [List.length_append, hP, hM]) (by rw [hS]; rfl)
    have e : List.replicate 32 0 = List.replicate 4 0 ++ List.replicate 28 0 := by
      rw [← List.replicate_add]
    rw [e, ← List.append_assoc, h]
  have s4 : store (wordsToBytes u.projectionMatrix ++ wordsToBytes u.modelViewMatrix
        ++ wordsToBytes [u.pointSize] ++ List.replicate 28 0) 144 (wordsToBytes u.edgeColor)
      = wordsToBytes u.projectionMatrix ++ wordsToBytes u.modelViewMatrix
        ++ wordsToBytes [u.pointSize] ++ List.replicate 12 0 ++ wordsToBytes u.edgeColor := by
    have h := store_append (wordsToBytes u.projectionMatrix ++ wordsToBytes u.modelViewMatrix
        ++ wordsToBytes [u.pointSize] ++ List.replicate 12 0)
      (List.replicate 16 0) [] (wordsToBytes u.edgeColor) 144
      (by simp only [List.length_append, hP, hM, hS, List.length_replicate])
      (by rw [hE]; rfl)
    have e : List.replicate 28 0 = List.replicate 12 0 ++ List.replicate 16 0 := by
      rw [← List.replicate_add]
    rw [List.append_nil, List.append_nil] at h
    rw [e, ← List.append_assoc, h]
  unfold hostBytes
  rw [hoff, hsz]
  simp only [UniformsValue.members, List.zip_cons_cons, List.zip_nil_right, storeMembers]
  rw [s1, s2, s3, s4]

theorem shaderRead_layout (P M S Z E : List Nat) (hP : P.length = 64) (hM : M.length = 64)
    (hS : S.length = 4) (hZ : Z.length = 12) (hE : E.length = 16) :
    shaderMembers Uniforms (P ++ M ++ S ++ Z ++ E)
      = [bytesToWords P, bytesToWords M, bytesToWords S, bytesToWords E] := by
  have o1 : shaderOffsetOf Uniforms "projectionMatrix" = some 0 := by decide
  have o2 : shaderOffsetOf Uniforms "modelViewMatrix" = some 64 := by decide
  have o3 : shaderOffsetOf Uniforms "pointSize" = some 128 := by decide
  have o4 : shaderOffsetOf Uniforms "edgeColor" = some 144 := by decide
  have z1 : (shaderTypeLayout .simd_float4x4).size = 64 := by decide
  have z2 : (shaderTypeLayout .float).size = 4 := by decide
  have z3 : (shaderTypeLayout .simd_float4).size = 16 := by decide
  have l1 : load (P ++ M ++ S ++ Z ++ E) 0 64 = P := by
    have h := load_append [] P (M ++ S ++ Z ++ E) 0 64 rfl hP
    simpa only [List.nil_append, List.append_assoc] using h
  have l2 : load (P ++ M ++ S ++ Z ++ E) 64 64 = M := by
    have h := load_append P M (S ++ Z ++ E) 64 64 hP hM
    simpa only [List.append_assoc] using h
  have l3 : load (P ++ M ++ S ++ Z ++ E) 128 4 = S := by
    have h := load_append (P ++ M) S (Z ++ E) 128 4 (by rw [List.length_append, hP, hM]) hS
    simpa only [List.append_assoc] using h
  have l4 : load (P ++ M ++ S ++ Z ++ E) 144 16 = E := by
    have h := load_append (P ++ M ++ S ++ Z) E [] 144 16
      (by simp only [List.length_append, hP, hM, hS, hZ]) hE
    simpa only [List.append_assoc, List.append_nil] using h
  show [bytesToWords (load (P ++ M ++ S ++ Z ++ E)
          ((shaderOffsetOf Uniforms "projectionMatrix").getD 0)
          (shaderTypeLayout .simd_float4x4).size),
        bytesToWords (load (P ++ M ++ S ++ Z ++ E)
          ((shaderOffsetOf Uniforms "modelViewMatrix").getD 0)
          (shaderTypeLayout .simd_float4x4).size),
        bytesToWords (load (P ++ M ++ S ++ Z ++ E)
          ((shaderOffsetOf Uniforms "pointSize").getD 0)
          (shaderTypeLayout .float).size),
        bytesToWords (load (P ++ M ++ S ++ Z ++ E)
          ((shaderOffsetOf Uniforms "edgeColor").getD 0)
          (shaderTypeLayout .simd_float4).size)] = _
  rw [o1, o2, o3, o4, z1, z2, z3]
  simp only [Option.getD_some, l1, l2, l3, l4]

/-! ## Lemmas on the layout rule and on integer representations -/

theorem alignUp_spec (off a : Nat) (ha : 0 < a) :
    a ∣ alignUp off a ∧ off ≤ alignUp off a ∧ alignUp off a < off + a := by
  unfold alignUp
  refine ⟨Dvd.intro_left _ rfl, ?_, ?_⟩
  · have h1 := Nat.div_add_mod (off + a - 1) a
    have h2 := Nat.mod_lt (off + a - 1) ha
    have h3 : (off + a - 1) / a * a = a * ((off + a - 1) / a) := Nat.mul_comm _ _
    omega
  · have h1 := Nat.div_mul_le_self (off + a - 1) a
    omega

theorem encodeInt_of_nonneg (w : Nat) (v : Int) (h0 : 0 ≤ v) (h : v < (2 : Int) ^ w) :
    encodeInt w v = v.toNat := by
  unfold encodeInt
  rw [Int.emod_eq_of_lt h0 h]

theorem decodeInt_encodeInt (w : Nat) (v : Int) (h0 : 0 ≤ v)
    (h : v < (2 : Int) ^ (w - 1)) : decodeInt w (encodeInt w v) = v := by
  have hle : (2 : Int) ^ (w - 1) ≤ (2 : Int) ^ w :=
    pow_le_pow_right₀ (by norm_num) (Nat.sub_le w 1)
  rw [encodeInt_of_nonneg w v h0 (lt_of_lt_of_le h hle)]
  unfold decodeInt
  have hv : ((v.toNat : Nat) : Int) = v := Int.toNat_of_nonneg h0
  have hlt : v.toNat < 2 ^ (w - 1) := by
    have : ((v.toNat : Nat) : Int) < ((2 ^ (w - 1) : Nat) : Int) := by
      rw [hv]; exact_mod_cast h
    exact_mod_cast this
  rw [if_pos hlt, hv]

theorem enumerator_range :
    ∀ d ∈ enumerations, ∀ p ∈ d.values, 0 ≤ p.2 ∧ p.2 < (2 : Int) ^ 31 := by decide

theorem host_reordering_differs :
    ∀ a ∈ Uniforms, ∀ b ∈ Uniforms, ∀ c ∈ Uniforms, ∀ d ∈ Uniforms, [a, b, c, d] ≠ Uniforms →
      ∃ f ∈ Uniforms, hostOffsetOf [a, b, c, d] f.name ≠ hostOffsetOf Uniforms f.name := by
  decide

theorem shader_reordering_differs :
    ∀ a ∈ Uniforms, ∀ b ∈ Uniforms, ∀ c ∈ Uniforms, ∀ d ∈ Uniforms, [a, b, c, d] ≠ Uniforms →
      ∃ f ∈ Uniforms, shaderOffsetOf [a, b, c, d] f.name ≠ shaderOffsetOf Uniforms f.name := by
  decide

theorem reordering_shape (p : List Field) (hperm : p.Perm Uniforms) :
    ∃ a ∈ Uniforms, ∃ b ∈ Uniforms, ∃ c ∈ Uniforms, ∃ d ∈ Uniforms, p = [a, b, c, d] := by
  have hlen : p.length = 4 := hperm.length_eq
  have hmem : ∀ x ∈ p, x ∈ Uniforms := fun x hx => hperm.subset hx
  match p, hlen, hmem with
  | [a, b, c, d], _, hmem =>
    exact ⟨a, hmem a (by simp), b, hmem b (by simp), c, hmem c (by simp), d, hmem d (by simp), rfl⟩

/-! ## The two layout rules agree on every struct of these member types -/

theorem metalPadding_eq (off a : Nat) (ha : 0 < a) :
    off + metalPadding off a = alignUp off a := by
  obtain ⟨hd, hle, hlt⟩ := alignUp_spec off a ha
  obtain ⟨k, hk⟩ := hd
  have hm := Nat.div_add_mod off a
  have hr := Nat.mod_lt off ha
  unfold metalPadding
  rw [hk]
  rw [hk] at hle hlt
  rcases Nat.eq_zero_or_pos (off % a) with h0 | hpos
  · rw [h0, Nat.sub_zero, Nat.mod_self, Nat.add_zero]
    rw [h0, Nat.add_zero] at hm
    have h1 : a * (off / a) ≤ a * k := by omega
    have h2 : a * k < a * (off / a + 1) := by rw [Nat.mul_add, Nat.mul_one]; omega
    have h3 := Nat.le_of_mul_le_mul_left h1 ha
    have h4 := Nat.lt_of_mul_lt_mul_left h2
    have h5 : k = off / a := by omega
    rw [h5]; omega
  · rw [Nat.mod_eq_of_lt (by omega : a - off % a < a)]
    have h1 : a * (off / a) < a * k := by omega
    have h2 : a * k < a * (off / a + 2) := by rw [Nat.mul_add]; omega
    have h3 := Nat.lt_of_mul_lt_mul_left h1
    have h4 := Nat.lt_of_mul_lt_mul_left h2
    have h5 : k = off / a + 1 := by omega
    rw [h5, Nat.mul_add, Nat.mul_one]; omega

theorem shaderTypeLayout_eq_host (t : TypeName) : shaderTypeLayout t = hostTypeLayout t := by
  cases t <;> rfl

theorem hostTypeLayout_align_pos (t : TypeName) : 0 < (hostTypeLayout t).align := by
  cases t <;> decide

theorem metalPlace_eq (acc : List (String × Nat)) (off al : Nat) (f : Field) :
    metalPlace ⟨acc, off, al⟩ f
      = ⟨acc ++ [(f.name, alignUp off (hostTypeLayout f.type).align)],
          alignUp off (hostTypeLayout f.type).align + (hostTypeLayout f.type).size,
          max al (hostTypeLayout f.type).align⟩ := by
  unfold metalPlace
  simp only [shaderTypeLayout_eq_host,
    metalPadding_eq off _ (hostTypeLayout_align_pos f.type)]

theorem metalLayout_foldl (fs : List Field) :
    ∀ (acc : List (String × Nat)) (off al : Nat),
      fs.foldl metalPlace ⟨acc, off, al⟩
        = ⟨acc ++ fieldOffsetsFrom hostTypeLayout off fs, fieldsEndFrom hostTypeLayout off fs,
            (fs.map (fun f => (hostTypeLayout f.type).align)).foldl max al⟩ := by
  induction fs with
  | nil => intro acc off al; simp [fieldOffsetsFrom, fieldsEndFrom]
  | cons f fs ih =>
    intro acc off al
    rw [List.foldl_cons, metalPlace_eq, ih]
    simp [fieldOffsetsFrom, fieldsEndFrom]

theorem foldl_max_pos (l : List Nat) : ∀ al, 0 < al → 0 < l.foldl max al := by
  induction l with
  | nil => intro al h; exact h
  | cons x xs ih =>
    intro al h
    rw [List.foldl_cons]
    exact ih _ (lt_of_lt_of_le h (le_max_left al x))

theorem shaderOffsets_eq_hostOffsets (fs : List Field) : shaderOffsets fs = hostOffsets fs := by
  unfold shaderOffsets metalStructLayout hostOffsets fieldOffsets
  rw [metalLayout_foldl]; rfl

theorem shaderSize_eq_hostSize (fs : List Field) : shaderSize fs = hostSize fs := by
  unfold shaderSize metalStructLayout hostSize structSize structAlign
  rw [metalLayout_foldl]
  exact metalPadding_eq _ _ (foldl_max_pos _ 1 Nat.one_pos)

/-! ## The claims -/

/-- C1: every enumerator declared in the header has exactly the value of the
binding table (BufferIndexNodePosition 0, BufferIndexNodeColor 1,
BufferIndexUniforms 2, VertexAttributePosition 0, VertexAttributeColor 1,
TextureIndexColor 0), and the three enumerations declare nothing beyond these
six enumerators. -/
theorem C1_enumerator_values :
    enumerations = [BufferIndex, VertexAttribute, TextureIndex]
      ∧ BufferIndex.values = [("BufferIndexNodePosition", 0), ("BufferIndexNodeColor", 1),
          ("BufferIndexUniforms", 2)]
      ∧ VertexAttribute.values = [("VertexAttributePosition", 0), ("VertexAttributeColor", 1)]
      ∧ TextureIndex.values = [("TextureIndexColor", 0)] := by
  decide

/-- C2: the Uniforms record has exactly four members, in the order
projectionMatrix, modelViewMatrix, pointSize, edgeColor, written with the types
simd_float4x4, simd_float4x4, float, simd_float4, that is a 4x4 matrix of 32-bit
floats twice, one 32-bit float, and a 4-component vector of 32-bit floats. -/
theorem C2_uniforms_fields :
    Uniforms.length = 4
      ∧ Uniforms.map (fun f => (f.name, f.type))
          = [("projectionMatrix", TypeName.simd_float4x4),
             ("modelViewMatrix", TypeName.simd_float4x4),
             ("pointSize", TypeName.float),
             ("edgeColor", TypeName.simd_float4)]
      ∧ Uniforms.map (fun f => (f.name, f.type.shape))
          = [("projectionMatrix", Shape.matrix 4 4 32),
             ("modelViewMatrix", Shape.matrix 4 4 32),
             ("pointSize", Shape.scalar 32),
             ("edgeColor", Shape.vector 4 32)] := by
  decide

/-- C3: with the host sizes and alignments (simd_float4x4 64 and 16, float 4
and 4, simd_float4 16 and 16), every member of Uniforms has a byte offset under
the host layout rule, and it is the byte offset the shader layout rule computes
for float4x4, float and float4. -/
theorem C3_offsets_agree :
    hostTypeLayout .simd_float4x4 = ⟨64, 16⟩ ∧ hostTypeLayout .float = ⟨4, 4⟩
      ∧ hostTypeLayout .simd_float4 = ⟨16, 16⟩
      ∧ ∀ f ∈ Uniforms,
          (hostOffsetOf Uniforms f.name).isSome = true
            ∧ hostOffsetOf Uniforms f.name
                = shaderOffsetOf Uniforms f.name := by
  decide

/-- C4: the byte size of Uniforms under the host layout rule (members aligned
to their own alignment, the total rounded up to the largest member alignment)
equals the byte size the shader layout rule computes from the shader's own
types. -/
theorem C4_sizes_agree :
    hostSize Uniforms = shaderSize Uniforms := by
  decide

/-- C5: for every Uniforms value whose 37 float components are 32-bit patterns,
writing it to bytes with the host layout and reading those bytes with the shader
layout gives back every member bit for bit. -/
theorem C5_round_trip (u : UniformsValue) (h : u.WellFormed) :
    shaderRead (hostBytes u) = some u := by
  obtain ⟨hp, hm, he, bp, bm, bs, be⟩ := h
  have hS : (wordsToBytes [u.pointSize]).length = 4 := by
    rw [wordsToBytes_length]; rfl
  have bS : ∀ w ∈ [u.pointSize], w < 2 ^ 32 := by
    intro w hw
    rw [List.mem_singleton] at hw
    rw [hw]; exact bs
  unfold shaderRead
  rw [hostBytes_eq u hp hm he,
    shaderRead_layout _ _ _ _ _ (by rw [wordsToBytes_length, hp]) (by rw [wordsToBytes_length, hm])
      hS (List.length_replicate 12 0) (by rw [wordsToBytes_length, he]),
    bytesToWords_wordsToBytes _ bp, bytesToWords_wordsToBytes _ bm,
    bytesToWords_wordsToBytes _ bS, bytesToWords_wordsToBytes _ be]
  rfl

/-- Witness for C5: the scenario value (both matrices the identity, pointSize
5.0, edgeColor (1.0, 0.0, 0.0, 1.0)) is well formed and survives the trip from
host bytes to the shader. -/
theorem C5_round_trip_witness :
    scenarioValue.WellFormed ∧ shaderRead (hostBytes scenarioValue) = some scenarioValue :=
  ⟨by unfold UniformsValue.WellFormed; decide,
   C5_round_trip scenarioValue (by unfold UniformsValue.WellFormed; decide)⟩

/-- C6: within each of the three enumerations the values are pairwise distinct
and contiguous from 0: an enumeration with n enumerators has the values
0, 1, ..., n-1 in declaration order. -/
theorem C6_values_contiguous :
    ∀ d ∈ enumerations,
      d.values.length = d.enumerators.length
        ∧ d.values.map Prod.snd = (List.range d.enumerators.length).map Int.ofNat
        ∧ (d.values.map Prod.snd).Nodup := by
  decide

/-- Witness for C6: BufferIndex is one of the enumerations, and its three
values are 0, 1, 2 in declaration order, without duplicates. -/
theorem C6_values_contiguous_witness :
    BufferIndex ∈ enumerations
      ∧ BufferIndex.values.length = BufferIndex.enumerators.length
      ∧ BufferIndex.values.map Prod.snd
          = (List.range BufferIndex.enumerators.length).map Int.ofNat
      ∧ (BufferIndex.values.map Prod.snd).Nodup :=
  ⟨by decide, C6_values_contiguous BufferIndex (by decide)⟩

/-- C7: every reordering of the four members of Uniforms other than the
declared order gives at least one named member a byte offset different from its
offset in the declared order, under the host layout rule and under the shader
layout rule alike. -/
theorem C7_reordering_detected (p : List Field) (hperm : p.Perm Uniforms) (hne : p ≠ Uniforms) :
    (∃ f ∈ Uniforms, hostOffsetOf p f.name ≠ hostOffsetOf Uniforms f.name)
      ∧ (∃ f ∈ Uniforms,
          shaderOffsetOf p f.name ≠ shaderOffsetOf Uniforms f.name) := by
  obtain ⟨a, ha, b, hb, c, hc, d, hd, rfl⟩ := reordering_shape p hperm
  exact ⟨host_reordering_differs a ha b hb c hc d hd hne,
    shader_reordering_differs a ha b hb c hc d hd hne⟩

/-- Witness for C7: exchanging the two matrices is a reordering other than the
declared order, and the offset check catches it. -/
theorem C7_reordering_detected_witness :
    matricesSwapped.Perm Uniforms ∧ matricesSwapped ≠ Uniforms
      ∧ (∃ f ∈ Uniforms,
          hostOffsetOf matricesSwapped f.name ≠ hostOffsetOf Uniforms f.name)
      ∧ (∃ f ∈ Uniforms,
          shaderOffsetOf matricesSwapped f.name
            ≠ shaderOffsetOf Uniforms f.name) :=
  ⟨List.Perm.swap _ _ _, by decide,
   C7_reordering_detected matricesSwapped (List.Perm.swap _ _ _) (by decide)⟩

/-- C8, as stated, fails: on a host whose Foundation makes NSInteger 64 bits
wide, the underlying type of the enumerations is 64 bits wide in the host
compilation and 32 bits wide in the shader compilation. -/
theorem C8_widths_differ :
    (∀ d ∈ enumerations, d.underlying = "NSInteger")
      ∧ NSIntegerBits (.host 64) = 64 ∧ NSIntegerBits .metal = 32
      ∧ NSIntegerBits (.host 64) ≠ NSIntegerBits .metal := by
  decide

/-- C8, amended: the three enumerations have the explicit underlying type
NSInteger, 32 bits wide in the shader compilation and as wide as Foundation
makes it in the host compilation; whenever the host width is at least 32 bits,
every enumerator has the same bit pattern (read as a number) on both sides, and
each side reads the declared value back from it. -/
theorem C8_representations_agree (w : Nat) (hw : 32 ≤ w) :
    (∀ d ∈ enumerations, d.underlying = "NSInteger")
      ∧ NSIntegerBits .metal = 32 ∧ NSIntegerBits (.host w) = w
      ∧ ∀ d ∈ enumerations, ∀ p ∈ d.values,
          enumRepr (.host w) p.2 = enumRepr .metal p.2
            ∧ enumValueOf (.host w) (enumRepr (.host w) p.2) = p.2
            ∧ enumValueOf .metal (enumRepr .metal p.2) = p.2 := by
  refine ⟨by decide, rfl, rfl, ?_⟩
  intro d hd p hp
  obtain ⟨h0, h31⟩ := enumerator_range d hd p hp
  have h32 : p.2 < (2 : Int) ^ 32 := lt_trans h31 (by norm_num)
  have hw1 : (2 : Int) ^ 31 ≤ (2 : Int) ^ (w - 1) :=
    pow_le_pow_right₀ (by norm_num) (by omega)
  have hww : (2 : Int) ^ 32 ≤ (2 : Int) ^ w := pow_le_pow_right₀ (by norm_num) hw
  refine ⟨?_, ?_, ?_⟩
  · unfold enumRepr NSIntegerBits
    rw [encodeInt_of_nonneg w p.2 h0 (lt_of_lt_of_le h32 hww),
      encodeInt_of_nonneg 32 p.2 h0 h32]
  · unfold enumValueOf enumRepr NSIntegerBits
    exact decodeInt_encodeInt w p.2 h0 (lt_of_lt_of_le h31 hw1)
  · unfold enumValueOf enumRepr NSIntegerBits
    exact decodeInt_encodeInt 32 p.2 h0 h31

/-- Witness for the amended C8: a host with a 64-bit NSInteger. -/
theorem C8_representations_agree_witness :
    32 ≤ 64
      ∧ (∀ d ∈ enumerations, d.underlying = "NSInteger")
      ∧ NSIntegerBits .metal = 32 ∧ NSIntegerBits (.host 64) = 64
      ∧ ∀ d ∈ enumerations, ∀ p ∈ d.values,
          enumRepr (.host 64) p.2 = enumRepr .metal p.2
            ∧ enumValueOf (.host 64) (enumRepr (.host 64) p.2) = p.2
            ∧ enumValueOf .metal (enumRepr .metal p.2) = p.2 :=
  ⟨by decide, C8_representations_agree 64 (by decide)⟩

/-- C9: under the natural-alignment rule Uniforms has the offsets
projectionMatrix 0, modelViewMatrix 64, pointSize 128, edgeColor 144, alignment
16 and size 160; the member sizes sum to 148, so there are exactly 12 bytes of
padding, all of them between pointSize and edgeColor and none after
edgeColor. -/
theorem C9_uniforms_layout :
    hostOffsets Uniforms
        = [("projectionMatrix", 0), ("modelViewMatrix", 64), ("pointSize", 128),
           ("edgeColor", 144)]
      ∧ structAlign hostTypeLayout Uniforms = 16
      ∧ hostSize Uniforms = 160
      ∧ fieldSizesSum hostTypeLayout Uniforms = 148
      ∧ hostSize Uniforms - fieldSizesSum hostTypeLayout Uniforms = 12
      ∧ paddingBefore hostTypeLayout Uniforms
          = [("projectionMatrix", 0), ("modelViewMatrix", 0), ("pointSize", 0),
             ("edgeColor", 12)]
      ∧ tailPadding hostTypeLayout Uniforms = 0 := by
  decide

/-- C10: every enumerator value is non-negative and fits a signed 32-bit
integer, so keeping the low 32 bits of its 64-bit host pattern and reading them
as the shader's int32_t gives the same integer, and sign-extending the shader's
32-bit pattern to 64 bits gives back the host pattern. -/
theorem C10_enumerators_fit_int32 :
    ∀ d ∈ enumerations, ∀ p ∈ d.values,
      0 ≤ p.2 ∧ p.2 < (2 : Int) ^ 31
        ∧ truncate32 (enumRepr (.host 64) p.2) = enumRepr .metal p.2
        ∧ enumValueOf .metal (truncate32 (enumRepr (.host 64) p.2)) = p.2
        ∧ signExtend32to64 (enumRepr .metal p.2) = enumRepr (.host 64) p.2
        ∧ enumValueOf (.host 64) (signExtend32to64 (enumRepr .metal p.2)) = p.2 := by
  decide

/-- Witness for C10: BufferIndexUniforms, with value 2, is an enumerator of
BufferIndex, and its 64-bit and 32-bit patterns convert into each other. -/
theorem C10_enumerators_fit_int32_witness :
    BufferIndex ∈ enumerations
      ∧ (("BufferIndexUniforms", 2) : String × Int) ∈ BufferIndex.values
      ∧ (0 : Int) ≤ 2 ∧ (2 : Int) < (2 : Int) ^ 31
      ∧ truncate32 (enumRepr (.host 64) 2) = enumRepr .metal 2
      ∧ enumValueOf .metal (truncate32 (enumRepr (.host 64) 2)) = 2
      ∧ signExtend32to64 (enumRepr .metal 2) = enumRepr (.host 64) 2
      ∧ enumValueOf (.host 64) (signExtend32to64 (enumRepr .metal 2)) = 2 :=
  ⟨by decide, by decide,
   C10_enumerators_fit_int32 BufferIndex (by decide) ("BufferIndexUniforms", 2) (by decide)⟩

end ShaderTypes
